import Mathlib

/-!
# Verification of the JSON config registry (`src/config.hpp`)

Shallow embedding of the configuration system in `src/config.hpp`:
a registry of typed configuration variables (`ConfigVariable_t`) that a
`Config` store bulk-serializes to / deserializes from a single JSON document
via the nlohmann::json library.

The nlohmann::json library is an external dependency (not part of this
repository); it is modelled here by its documented behaviour:

* `nlohmann::json` (the default `basic_json` specialization) stores objects
  as `std::map<std::string, json>`, i.e. an association list kept sorted by
  key in lexicographic order, with duplicate keys collapsing last-write-wins;
* `json::parse(text)` throws `json::parse_error` on malformed input
  (exceptions enabled by default) and requires the whole input to be
  consumed; parsing is modelled as an `Option Json` (`none` = the thrown
  `parse_error`);
* `j.get<T>()` throws `json::type_error` when the stored kind does not match
  the requested type (`none` in the model);
* `j.dump()` (no arguments) produces compact output without whitespace and
  escapes `"` `\` and control characters in strings.

Not modelled (irrelevant to the verified claims): floating-point numbers
(the number grammar is restricted to integers and a fraction/exponent makes
the modelled parser fail), 64-bit integer bounds, UTF-8 byte-level
validation (text is a sequence of unicode scalar values), and `\uXXXX`
surrogate-pair decoding (a code unit in the surrogate range is rejected).

C++ exceptions are modelled explicitly: an operation that can throw returns
either an `Option` (field-level) or a `SetResult` (store-level) recording
both whether an exception escaped and the final state of the registered
variables (which, in C++, survive the exception since the loop mutates them
in place).

The filesystem, used only by `Config::load` / `Config::save`, is modelled as
the optional content of the named file (`none` = the `ifstream` failed to
open; `std::filesystem::create_directory` has no observable effect on the
variables and is dropped).
-/

/-- A JSON value, as in nlohmann::json.  Objects are association lists kept
sorted by key (the `std::map` object type of the default specialization);
numbers are modelled as unbounded integers. -/
inductive Json where
  | null : Json
  | bool (b : Bool) : Json
  | num (n : Int) : Json
  | str (s : String) : Json
  | arr (elems : List Json) : Json
  | obj (members : List (String × Json)) : Json

/-- `json::is_object()`. -/
def Json.isObject : Json → Bool
  | .obj _ => true
  | _ => false

/-- Lexicographic comparison of character sequences by code point: the order
`std::less<std::string>` applies to object keys (UTF-8 byte order coincides
with code-point order). -/
def charListLt : List Char → List Char → Bool
  | [], [] => false
  | [], _ :: _ => true
  | _ :: _, [] => false
  | a :: as, b :: bs =>
    if a.toNat < b.toNat then true
    else if b.toNat < a.toNat then false
    else charListLt as bs

/-- `std::less<std::string>` on keys. -/
def strLt (a b : String) : Bool := charListLt a.data b.data

/-- Insertion into the sorted association list backing a JSON object:
`std::map::operator[] =`, keeping keys in strictly increasing lexicographic
order and overwriting an existing entry with the same key. -/
def objInsert (k : String) (v : Json) : List (String × Json) → List (String × Json)
  | [] => [(k, v)]
  | (k', v') :: rest =>
    if strLt k k' then (k, v) :: (k', v') :: rest
    else if k = k' then (k, v) :: rest
    else (k', v') :: objInsert k v rest

/-- Lookup in a JSON object: `std::map::find` (by key equality). -/
def objFind (k : String) : List (String × Json) → Option Json
  | [] => none
  | (k', v) :: rest => if k = k' then some v else objFind k rest

/-- The keys of a JSON object, in storage order. -/
def objKeys (kvs : List (String × Json)) : List String :=
  kvs.map Prod.fst

/-- `object[key] = value` on a `nlohmann::json` value: a null document is
implicitly converted to an object first.  (On any other kind nlohmann throws
`type_error.305`; that branch is unreachable from `Config::get`, whose
accumulator is always null or an object, and is modelled as the identity.) -/
def Json.setKey (j : Json) (k : String) (v : Json) : Json :=
  match j with
  | .null => .obj (objInsert k v [])
  | .obj kvs => .obj (objInsert k v kvs)
  | other => other

/-- The value types the verified claims instantiate `ConfigVariable_t<T>`
with: `int`, `bool`, `std::string`. -/
inductive Value where
  | vint (n : Int) : Value
  | vbool (b : Bool) : Value
  | vstr (s : String) : Value
deriving DecidableEq

/-- The declared (compile-time) type `_Ty` of a variable. -/
inductive VTag where
  | tint : VTag
  | tbool : VTag
  | tstr : VTag
deriving DecidableEq

/-- The declared type of a stored value. -/
def Value.tag : Value → VTag
  | .vint _ => .tint
  | .vbool _ => .tbool
  | .vstr _ => .tstr

/-- Serialization of a stored value into a JSON value (`object[key_] = value_`
via the library's `to_json`). -/
def Value.toJson : Value → Json
  | .vint n => .num n
  | .vbool b => .bool b
  | .vstr s => .str s

/-- `object[key_].get<_Ty>()`: conversion of a JSON value to the declared
type.  nlohmann's `from_json` accepts only the matching kind (a number for
arithmetic types, a boolean for `bool`, a string for `std::string`) and
throws `type_error.302` otherwise (`none` here). -/
def Json.getTyped (t : VTag) (j : Json) : Option Value :=
  match t, j with
  | .tint, .num n => some (.vint n)
  | .tbool, .bool b => some (.vbool b)
  | .tstr, .str s => some (.vstr s)
  | _, _ => none

/-- A registered `ConfigVariable_t<_Ty>`: a key and a current value of the
declared type (the type tag is the constructor of `value_`). -/
structure ConfigVariable_t where
  key_ : String
  value_ : Value
deriving DecidableEq

/-- `ConfigVariable_t::load`: if the document has no entry at `key_`, return
with the value unchanged; otherwise convert the entry to `_Ty` and overwrite
the value.  `none` models the `type_error` exception escaping the call. -/
def ConfigVariable_t.load (f : ConfigVariable_t) (kvs : List (String × Json)) :
    Option ConfigVariable_t :=
  match objFind f.key_ kvs with
  | none => some f
  | some j =>
    match j.getTyped f.value_.tag with
    | none => none
    | some v => some { f with value_ := v }

/-- `ConfigVariable_t::save`: `object[key_] = value_`. -/
def ConfigVariable_t.save (f : ConfigVariable_t) (object : Json) : Json :=
  object.setKey f.key_ f.value_.toJson

/-- The state of a `ConfigVariable_t` after `load` over a document in which
its entry (if present) converts successfully; if `load` would throw, the
in-place C++ object keeps its previous state. -/
def ConfigVariable_t.loaded (f : ConfigVariable_t) (kvs : List (String × Json)) :
    ConfigVariable_t :=
  (f.load kvs).getD f

/-- Outcome of `Config::set` (and of `Config::load`, which forwards to it):
the final state of the registered variables together with which exception, if
any, escaped.  In C++ the variables are external objects mutated in place, so
they have a well-defined state even when an exception propagates. -/
inductive SetResult where
  | ok (variables_ : List ConfigVariable_t) : SetResult
  | parseErr (variables_ : List ConfigVariable_t) : SetResult
  | typeErr (variables_ : List ConfigVariable_t) : SetResult
deriving DecidableEq

/-- Whether an exception escaped the call. -/
def SetResult.throws : SetResult → Bool
  | .ok _ => false
  | _ => true

/-- Whether the escaped exception is the deserialization (`type_error`) one. -/
def SetResult.isTypeErr : SetResult → Bool
  | .typeErr _ => true
  | _ => false

/-- The final variable state recorded in a `SetResult`. -/
def SetResult.state : SetResult → List ConfigVariable_t
  | .ok vs => vs
  | .parseErr vs => vs
  | .typeErr vs => vs

namespace Config

/-- `Config::add_variable`: `variables_.push_back(variable)`. -/
def add_variable (variables_ : List ConfigVariable_t) (v : ConfigVariable_t) :
    List ConfigVariable_t :=
  variables_ ++ [v]

/-- The registration performed by the `ConfigVariable_t(key, value)`
constructor: build the variable and append it to the global registry. -/
def constructRegistered (variables_ : List ConfigVariable_t) (key : String)
    (value : Value) : List ConfigVariable_t :=
  add_variable variables_ ⟨key, value⟩

/-- The (lack of) registration performed by the default
`ConfigVariable_t()` constructor: its body never calls `add_variable`. -/
def constructDefault (variables_ : List ConfigVariable_t) :
    List ConfigVariable_t :=
  variables_

/-- The document built inside `Config::get`: starting from
`nlohmann::json object{}` (a null document) every registered variable in
order performs `variable->save(object)`. -/
def buildDoc (variables_ : List ConfigVariable_t) : Json :=
  variables_.foldl (fun object v => v.save object) Json.null

end Config

/-! ## Serialization: `json::dump()` (compact, `ensure_ascii = false`) -/

/-- Lowercase hexadecimal digit, as emitted in `\u00xx` escapes. -/
def hexDigit (n : Nat) : Char :=
  if n < 10 then Char.ofNat (48 + n) else Char.ofNat (87 + n)

/-- How `dump` emits one character of a string: `"` and `\` get a two-byte
escape, the five named control characters get their short escapes, any other
control character below U+0020 becomes `\u00xx`, everything else is emitted
as-is. -/
def escapeChar (c : Char) : List Char :=
  if c = '"' then ['\\', '"']
  else if c = '\\' then ['\\', '\\']
  else if c = '\x08' then ['\\', 'b']
  else if c = '\x0c' then ['\\', 'f']
  else if c = '\n' then ['\\', 'n']
  else if c = '\r' then ['\\', 'r']
  else if c = '\t' then ['\\', 't']
  else if c.toNat < 32 then
    ['\\', 'u', '0', '0', hexDigit (c.toNat / 16), hexDigit (c.toNat % 16)]
  else [c]

/-- `dump`'s rendering of a string body (without the surrounding quotes). -/
def escapeStr (cs : List Char) : List Char :=
  cs.flatMap escapeChar

/-- Decimal digits of `n`, most significant first; `fuel` bounds the
recursion depth (`n < 10 ^ fuel` suffices). -/
def natToDigitsAux : Nat → Nat → List Char
  | 0, _ => []
  | fuel + 1, n =>
    if n = 0 then []
    else natToDigitsAux fuel (n / 10) ++ [Char.ofNat (48 + n % 10)]

/-- Decimal rendering of a natural number. -/
def natToDigits (n : Nat) : List Char :=
  if n = 0 then ['0'] else natToDigitsAux (n + 1) n

/-- Decimal rendering of an integer, as `dump` emits `number_integer` /
`number_unsigned` values. -/
def dumpInt (n : Int) : List Char :=
  if n < 0 then '-' :: natToDigits n.natAbs else natToDigits n.toNat

mutual

/-- `json::dump()`: compact serialization, no whitespace, keys and string
values escaped; object members are emitted in storage (key-sorted) order. -/
def dumpJson : Json → List Char
  | .null => "null".data
  | .bool true => "true".data
  | .bool false => "false".data
  | .num n => dumpInt n
  | .str s => '"' :: (escapeStr s.data ++ ['"'])
  | .arr [] => ['[', ']']
  | .arr (e :: es) => '[' :: (dumpJson e ++ dumpElems es) ++ [']']
  | .obj [] => ['{', '}']
  | .obj (kv :: kvs) => '{' :: (dumpMember kv ++ dumpMembers kvs) ++ ['}']

/-- One `"key":value` member. -/
def dumpMember : String × Json → List Char
  | (k, v) => '"' :: (escapeStr k.data ++ '"' :: ':' :: dumpJson v)

/-- Remaining array elements, each preceded by a comma. -/
def dumpElems : List Json → List Char
  | [] => []
  | e :: es => ',' :: dumpJson e ++ dumpElems es

/-- Remaining object members, each preceded by a comma. -/
def dumpMembers : List (String × Json) → List Char
  | [] => []
  | kv :: kvs => ',' :: dumpMember kv ++ dumpMembers kvs

end

/-- `Config::get`: build the document by letting every registered variable
save itself, then serialize it with `dump`. -/
def Config.get (variables_ : List ConfigVariable_t) : String :=
  String.mk (dumpJson (Config.buildDoc variables_))

/-! ## Parsing: `json::parse(text)` (exceptions enabled).

`none` models a thrown `json::parse_error`.  The grammar follows RFC 8259 as
nlohmann implements it — the four whitespace characters, `true`/`false`/
`null` literals, strings with the standard escapes, no leading zeros in
numbers, the whole input must be consumed — except that number fractions and
exponents (floats) and surrogate-pair escapes are not modelled and fail. -/

/-- JSON insignificant whitespace (space, tab, line feed, carriage return). -/
def isWs (c : Char) : Bool :=
  c = ' ' || c = '\t' || c = '\n' || c = '\r'

/-- Skip insignificant whitespace. -/
def skipWs (cs : List Char) : List Char :=
  cs.dropWhile isWs

/-- Value of a hexadecimal digit in a `\uXXXX` escape. -/
def hexVal (c : Char) : Option Nat :=
  if '0' ≤ c ∧ c ≤ '9' then some (c.toNat - 48)
  else if 'a' ≤ c ∧ c ≤ 'f' then some (c.toNat - 87)
  else if 'A' ≤ c ∧ c ≤ 'F' then some (c.toNat - 55)
  else none

/-- The single character denoted by a short escape `\e`, when `e` is one of
the eight one-character escapes. -/
def unescape (e : Char) : Option Char :=
  if e = '"' then some '"'
  else if e = '\\' then some '\\'
  else if e = '/' then some '/'
  else if e = 'b' then some '\x08'
  else if e = 'f' then some '\x0c'
  else if e = 'n' then some '\n'
  else if e = 'r' then some '\r'
  else if e = 't' then some '\t'
  else none

/-- Parse the body of a string literal after the opening quote, returning the
decoded characters and the input after the closing quote.  Unescaped control
characters are rejected; `\uXXXX` decodes a scalar value (a code unit in the
surrogate range is rejected: pairs are not modelled).  `fuel` bounds the
recursion; every step consumes at least one input character, so callers pass
`length + 1`, which never runs out. -/
def parseStringBody : Nat → List Char → Option (List Char × List Char)
  | 0, _ => none
  | fuel + 1, cs =>
    match cs with
    | [] => none
    | c :: rest =>
      if c = '"' then some ([], rest)
      else if c = '\\' then
        match rest with
        | [] => none
        | e :: rest1 =>
          match unescape e with
          | some decoded =>
            (parseStringBody fuel rest1).map (fun p => (decoded :: p.1, p.2))
          | none =>
            if e = 'u' then
              match rest1 with
              | h1 :: h2 :: h3 :: h4 :: rest2 =>
                match hexVal h1, hexVal h2, hexVal h3, hexVal h4 with
                | some a, some b, some hc, some hd =>
                  let code := ((a * 16 + b) * 16 + hc) * 16 + hd
                  if 55296 ≤ code ∧ code ≤ 57343 then none
                  else (parseStringBody fuel rest2).map
                    (fun p => (Char.ofNat code :: p.1, p.2))
                | _, _, _, _ => none
              | _ => none
            else none
      else if c.toNat < 32 then none
      else (parseStringBody fuel rest).map (fun p => (c :: p.1, p.2))

/-- Accumulate a digit string into a natural number. -/
def digitsToNat (ds : List Char) : Nat :=
  ds.foldl (fun a c => a * 10 + (c.toNat - 48)) 0

/-- Whether the remaining input starts a fraction or exponent, i.e. the
number would be a `number_float` (not modelled). -/
def floatStart : List Char → Bool
  | [] => false
  | c :: _ => c = '.' || c = 'e' || c = 'E'

/-- Parse a nonempty run of digits with no leading zero; a following `.`,
`e` or `E` would start a `number_float`, which is not modelled. -/
def parseDigits (cs : List Char) : Option (Nat × List Char) :=
  match cs.takeWhile Char.isDigit with
  | [] => none
  | d :: ds =>
    if d = '0' ∧ ds ≠ [] then none
    else if floatStart (cs.dropWhile Char.isDigit) then none
    else some (digitsToNat (d :: ds), cs.dropWhile Char.isDigit)

/-- Parse an integer number token (optional minus sign, then digits). -/
def parseNumber (cs : List Char) : Option (Json × List Char) :=
  match cs with
  | [] => none
  | c :: rest =>
    if c = '-' then (parseDigits rest).map (fun p => (Json.num (-(p.1 : Int)), p.2))
    else (parseDigits (c :: rest)).map (fun p => (Json.num (p.1 : Int), p.2))

/-- Check that the input continues with the given literal characters
(the tail of `true` / `false` / `null`), returning what follows. -/
def parseLiteralTail : List Char → List Char → Option (List Char)
  | [], cs => some cs
  | _ :: _, [] => none
  | l :: ls, c :: cs => if c = l then parseLiteralTail ls cs else none

mutual

/-- Parse one JSON value; `fuel` bounds the recursion through containers. -/
def parseValue : Nat → List Char → Option (Json × List Char)
  | 0, _ => none
  | fuel + 1, cs =>
    match skipWs cs with
    | [] => none
    | c :: rest =>
      if c = '{' then parseObjFirst fuel rest
      else if c = '[' then parseArrFirst fuel rest
      else if c = '"' then
        (parseStringBody (rest.length + 1) rest).map
          (fun p => (Json.str (String.mk p.1), p.2))
      else if c = 't' then
        (parseLiteralTail ['r', 'u', 'e'] rest).map (fun r => (Json.bool true, r))
      else if c = 'f' then
        (parseLiteralTail ['a', 'l', 's', 'e'] rest).map (fun r => (Json.bool false, r))
      else if c = 'n' then
        (parseLiteralTail ['u', 'l', 'l'] rest).map (fun r => (Json.null, r))
      else parseNumber (c :: rest)

/-- After `{`: either an immediate `}` or a first member. -/
def parseObjFirst : Nat → List Char → Option (Json × List Char)
  | 0, _ => none
  | fuel + 1, cs =>
    match skipWs cs with
    | [] => none
    | c :: rest =>
      if c = '}' then some (Json.obj [], rest)
      else parseObjRest fuel [] (c :: rest)

/-- Parse the members of an object, inserting each into the accumulating
`std::map` (so stored keys end up sorted, duplicates last-write-wins):
a member starts with its quoted key. -/
def parseObjRest : Nat → List (String × Json) → List Char → Option (Json × List Char)
  | 0, _, _ => none
  | fuel + 1, acc, cs =>
    match skipWs cs with
    | [] => none
    | c :: rest =>
      if c = '"' then
        match parseStringBody (rest.length + 1) rest with
        | none => none
        | some (k, rest1) => parseMemberColon fuel acc (String.mk k) rest1
      else none

/-- After a member key: expect `:` and the member value, which is inserted
into the accumulating object. -/
def parseMemberColon : Nat → List (String × Json) → String → List Char →
    Option (Json × List Char)
  | 0, _, _, _ => none
  | fuel + 1, acc, k, cs =>
    match skipWs cs with
    | [] => none
    | c1 :: rest2 =>
      if c1 = ':' then
        match parseValue fuel rest2 with
        | none => none
        | some (v, rest3) => parseMemberNext fuel (objInsert k v acc) rest3
      else none

/-- After a member value: either `,` and the next member, or `}` closing the
object. -/
def parseMemberNext : Nat → List (String × Json) → List Char →
    Option (Json × List Char)
  | 0, _, _ => none
  | fuel + 1, acc, cs =>
    match skipWs cs with
    | [] => none
    | c2 :: rest4 =>
      if c2 = ',' then parseObjRest fuel acc rest4
      else if c2 = '}' then some (Json.obj acc, rest4)
      else none

/-- After `[`: either an immediate `]` or a first element. -/
def parseArrFirst : Nat → List Char → Option (Json × List Char)
  | 0, _ => none
  | fuel + 1, cs =>
    match skipWs cs with
    | [] => none
    | c :: rest =>
      if c = ']' then some (Json.arr [], rest)
      else parseArrRest fuel [] (c :: rest)

/-- Parse the elements of an array. -/
def parseArrRest : Nat → List Json → List Char → Option (Json × List Char)
  | 0, _, _ => none
  | fuel + 1, acc, cs =>
    match parseValue fuel cs with
    | none => none
    | some (v, rest) =>
      match skipWs rest with
      | [] => none
      | c :: rest2 =>
        if c = ',' then parseArrRest fuel (acc ++ [v]) rest2
        else if c = ']' then some (Json.arr (acc ++ [v]), rest2)
        else none

end

/-- `nlohmann::json::parse(text)`: parse one value and require the rest of
the input to be whitespace; `none` models the thrown `parse_error`.  The
fuel `2 * length + 4` exceeds what any input can consume (each unit of fuel
spent on containers consumes input). -/
def json_parse (text : String) : Option Json :=
  match parseValue (2 * text.data.length + 4) text.data with
  | none => none
  | some (j, rest) => if skipWs rest = [] then some j else none

/-- The loop of `Config::set`: each registered variable in order loads
itself from the parsed object.  A `type_error` thrown by one variable's
`load` aborts the loop: that variable and the later ones keep their previous
state, the earlier ones keep their freshly loaded state. -/
def Config.loadAll (kvs : List (String × Json)) : List ConfigVariable_t → SetResult
  | [] => .ok []
  | f :: fs =>
    match f.load kvs with
    | none => .typeErr (f :: fs)
    | some f' =>
      match Config.loadAll kvs fs with
      | .ok fs' => .ok (f' :: fs')
      | .typeErr fs' => .typeErr (f' :: fs')
      | .parseErr fs' => .parseErr (f' :: fs')

/-- `Config::set`: parse the text (a `parse_error` escapes before any field
is touched); if the parsed document is not an object, return without
touching any field; otherwise let every registered variable load itself. -/
def Config.set (variables_ : List ConfigVariable_t) (json : String) : SetResult :=
  match json_parse json with
  | none => .parseErr variables_
  | some (.obj kvs) => Config.loadAll kvs variables_
  | some _ => .ok variables_

/-- `Config::load`: the file system is modelled by the optional content of
`<path_>/<file_name>` (`none` = the `ifstream` could not be opened, in which
case the body is skipped entirely); otherwise the whole content is read and
passed to `set`.  `std::filesystem::create_directory` does not affect the
registered variables and is dropped. -/
def Config.load (file : Option String) (variables_ : List ConfigVariable_t) :
    SetResult :=
  match file with
  | none => .ok variables_
  | some content => Config.set variables_ content

/-! ## Analysis definitions -/

/-- The `std::map` storage invariant: keys strictly increasing. -/
def objSorted (kvs : List (String × Json)) : Prop :=
  List.Pairwise (fun a b : String × Json => strLt a.1 b.1 = true) kvs

/-- A scalar JSON value of one of the kinds a `Value` serializes to. -/
def Json.isSimple : Json → Bool
  | .num _ => true
  | .bool _ => true
  | .str _ => true
  | _ => false

/-- The keys of a document (empty for a non-object). -/
def docKeys : Json → List String
  | .obj kvs => objKeys kvs
  | _ => []

/-- Entry lookup in a document (nothing for a non-object). -/
def docFind (j : Json) (k : String) : Option Json :=
  match j with
  | .obj kvs => objFind k kvs
  | _ => none

/-- The object members accumulated by the save loop of `Config::get`,
starting from the members `acc`. -/
def Config.buildKvs (variables_ : List ConfigVariable_t)
    (acc : List (String × Json)) : List (String × Json) :=
  variables_.foldl (fun a f => objInsert f.key_ f.value_.toJson a) acc

/-- The next character (if any) cannot extend a number token: it is not a
digit and does not start a fraction or exponent. -/
def numBoundary : List Char → Bool
  | [] => true
  | c :: _ => !c.isDigit && !(c = '.') && !(c = 'e') && !(c = 'E')

/-! ## Lemmas: the sorted association list backing JSON objects -/

theorem char_eq_of_toNat_eq (a b : Char) (h : a.toNat = b.toNat) : a = b :=
  Char.ext (UInt32.ext h)

theorem bool_false_eq_true : (false = true) ↔ False :=
  ⟨fun h => Bool.noConfusion h, False.elim⟩

theorem charListLt_irrefl : ∀ l : List Char, charListLt l l = false := by
  intro l
  induction l with
  | nil => rfl
  | cons a as ih => simp [charListLt, ih]

theorem charListLt_trans : ∀ l1 l2 l3 : List Char, charListLt l1 l2 = true →
    charListLt l2 l3 = true → charListLt l1 l3 = true := by
  intro l1
  induction l1 with
  | nil =>
    intro l2 l3 h12 h23
    cases l2 with
    | nil => cases h12
    | cons b bs =>
      cases l3 with
      | nil => cases h23
      | cons c cs => rfl
  | cons a as ih =>
    intro l2 l3 h12 h23
    cases l2 with
    | nil => cases h12
    | cons b bs =>
      cases l3 with
      | nil => cases h23
      | cons c cs =>
        simp only [charListLt] at h12 h23 ⊢
        by_cases hab : a.toNat < b.toNat
        · by_cases hbc : b.toNat < c.toNat
          · have hac : a.toNat < c.toNat := lt_trans hab hbc
            simp [hac]
          · simp only [if_neg hbc] at h23
            by_cases hcb : c.toNat < b.toNat
            · rw [if_pos hcb] at h23
              cases h23
            · rw [if_neg hcb] at h23
              have hac : a.toNat < c.toNat := by omega
              simp [hac]
        · by_cases hba : b.toNat < a.toNat
          · rw [if_neg hab, if_pos hba] at h12
            cases h12
          · rw [if_neg hab, if_neg hba] at h12
            by_cases hbc : b.toNat < c.toNat
            · have hac : a.toNat < c.toNat := by omega
              simp [hac]
            · simp only [if_neg hbc] at h23
              by_cases hcb : c.toNat < b.toNat
              · rw [if_pos hcb] at h23
                cases h23
              · rw [if_neg hcb] at h23
                have hac : ¬a.toNat < c.toNat := by omega
                have hca : ¬c.toNat < a.toNat := by omega
                rw [if_neg hac, if_neg hca]
                exact ih bs cs h12 h23

theorem charListLt_eq_of_not : ∀ l1 l2 : List Char, charListLt l1 l2 = false →
    charListLt l2 l1 = false → l1 = l2 := by
  intro l1
  induction l1 with
  | nil =>
    intro l2 h1 _
    cases l2 with
    | nil => rfl
    | cons b bs => cases h1
  | cons a as ih =>
    intro l2 h1 h2
    cases l2 with
    | nil => cases h2
    | cons b bs =>
      simp only [charListLt] at h1 h2
      by_cases hab : a.toNat < b.toNat
      · rw [if_pos hab] at h1
        cases h1
      · by_cases hba : b.toNat < a.toNat
        · rw [if_pos hba] at h2
          cases h2
        · rw [if_neg hab, if_neg hba] at h1
          rw [if_neg hba, if_neg hab] at h2
          have hchar : a = b := char_eq_of_toNat_eq a b (by omega)
          rw [hchar, ih bs h1 h2]

theorem strLt_irrefl (a : String) : strLt a a = false :=
  charListLt_irrefl a.data

theorem strLt_trans (a b c : String) (h1 : strLt a b = true)
    (h2 : strLt b c = true) : strLt a c = true :=
  charListLt_trans a.data b.data c.data h1 h2

theorem strLt_asymm (a b : String) (h : strLt a b = true) : strLt b a = false := by
  cases hba : strLt b a with
  | false => rfl
  | true =>
    have := strLt_trans a b a h hba
    rw [strLt_irrefl] at this
    cases this

theorem strLt_ne (a b : String) (h : strLt a b = true) : a ≠ b := by
  intro heq
  rw [heq, strLt_irrefl] at h
  cases h

theorem strLt_total (a b : String) (h1 : strLt a b = false)
    (h2 : strLt b a = false) : a = b := by
  have hdata := charListLt_eq_of_not a.data b.data h1 h2
  cases a with
  | mk d1 =>
    cases b with
    | mk d2 =>
      simp only [] at hdata
      rw [hdata]


theorem objInsert_ne_nil (k : String) (v : Json) (kvs : List (String × Json)) :
    objInsert k v kvs ≠ [] := by
  cases kvs with
  | nil => simp [objInsert]
  | cons kv rest =>
    obtain ⟨k', v'⟩ := kv
    simp only [objInsert]
    split
    · simp
    · split <;> simp

theorem objFind_insert_self (k : String) (v : Json) (kvs : List (String × Json)) :
    objFind k (objInsert k v kvs) = some v := by
  induction kvs with
  | nil => simp [objInsert, objFind]
  | cons kv rest ih =>
    obtain ⟨k', v'⟩ := kv
    by_cases h1 : strLt k k' = true
    · simp [objInsert, h1, objFind]
    · by_cases h2 : k = k'
      · subst h2
        simp [objInsert, h1, strLt_irrefl, bool_false_eq_true, objFind]
      · simp [objInsert, h1, h2, objFind, ih]

theorem objFind_insert_ne (q k : String) (v : Json) (kvs : List (String × Json))
    (h : q ≠ k) : objFind q (objInsert k v kvs) = objFind q kvs := by
  induction kvs with
  | nil => simp [objInsert, objFind, h]
  | cons kv rest ih =>
    obtain ⟨k', v'⟩ := kv
    by_cases h1 : strLt k k' = true
    · simp [objInsert, h1, objFind, h]
    · by_cases h2 : k = k'
      · subst h2
        simp [objInsert, h1, strLt_irrefl, bool_false_eq_true, objFind, h]
      · by_cases h3 : q = k'
        · simp [objInsert, h1, h2, objFind, h3]
        · simp [objInsert, h1, h2, objFind, h3, ih]

theorem objInsert_mem (p : String × Json) (k : String) (v : Json)
    (kvs : List (String × Json)) (h : p ∈ objInsert k v kvs) :
    p = (k, v) ∨ p ∈ kvs := by
  induction kvs with
  | nil => simpa [objInsert] using h
  | cons kv rest ih =>
    obtain ⟨k', v'⟩ := kv
    by_cases h1 : strLt k k' = true
    · simp only [objInsert, h1, if_true, List.mem_cons] at h
      simp only [List.mem_cons]
      tauto
    · by_cases h2 : k = k'
      · subst h2
        simp only [objInsert, strLt_irrefl, bool_false_eq_true, if_false,
          eq_self_iff_true, if_true, List.mem_cons] at h
        simp only [List.mem_cons]
        tauto
      · simp only [objInsert, h1, bool_false_eq_true, if_false, h2,
          List.mem_cons] at h
        simp only [List.mem_cons]
        rcases h with h | h
        · tauto
        · rcases ih h with h' | h' <;> tauto

theorem objSorted_insert (k : String) (v : Json) (kvs : List (String × Json))
    (h : objSorted kvs) : objSorted (objInsert k v kvs) := by
  induction kvs with
  | nil => simp [objInsert, objSorted]
  | cons kv rest ih =>
    obtain ⟨k', v'⟩ := kv
    rw [objSorted, List.pairwise_cons] at h
    obtain ⟨h1, h2⟩ := h
    by_cases hlt : strLt k k' = true
    · rw [objSorted, objInsert]
      simp only [hlt, if_true]
      refine List.Pairwise.cons ?_ (List.Pairwise.cons h1 h2)
      intro b hb
      rcases List.mem_cons.mp hb with rfl | hb'
      · exact hlt
      · exact strLt_trans _ _ _ hlt (h1 b hb')
    · by_cases heq : k = k'
      · subst heq
        rw [objSorted, objInsert]
        simp only [hlt, if_false, eq_self_iff_true, if_true]
        exact List.Pairwise.cons h1 h2
      · have hgt : strLt k' k = true := by
          cases hkk : strLt k' k with
          | true => rfl
          | false =>
            exact absurd (strLt_total k k' (eq_false_of_ne_true hlt) hkk) heq
        rw [objSorted, objInsert]
        simp only [hlt, if_false, heq, if_false]
        refine List.Pairwise.cons ?_ (ih h2)
        intro b hb
        rcases objInsert_mem b k v rest hb with rfl | hb'
        · exact hgt
        · exact h1 b hb'

theorem objKeys_insert_perm (k : String) (v : Json) (kvs : List (String × Json))
    (h : k ∉ objKeys kvs) :
    (objKeys (objInsert k v kvs)).Perm (k :: objKeys kvs) := by
  induction kvs with
  | nil => simp [objInsert, objKeys]
  | cons kv rest ih =>
    obtain ⟨k', v'⟩ := kv
    simp only [objKeys, List.map_cons] at h ⊢
    rw [List.mem_cons] at h
    push_neg at h
    obtain ⟨hne, hmem⟩ := h
    by_cases h1 : strLt k k' = true
    · simp only [objInsert, h1, eq_self_iff_true, if_true, List.map_cons]
      exact List.Perm.refl _
    · simp only [objInsert, h1, bool_false_eq_true, if_false, hne]
      simp only [objKeys, List.map_cons]
      exact (((ih hmem).cons k').trans (List.Perm.swap k k' _))

theorem objInsert_append_of_gt (k : String) (v : Json) (kvs : List (String × Json))
    (h : ∀ p ∈ kvs, strLt p.1 k = true) : objInsert k v kvs = kvs ++ [(k, v)] := by
  induction kvs with
  | nil => simp [objInsert]
  | cons kv rest ih =>
    obtain ⟨k', v'⟩ := kv
    have hk' : strLt k' k = true := h (k', v') (List.mem_cons_self _ _)
    have hf : strLt k k' = false := strLt_asymm k' k hk'
    have h2 : k ≠ k' := (strLt_ne k' k hk').symm
    simp only [objInsert, hf, bool_false_eq_true, if_false, h2,
      List.cons_append]
    rw [ih (fun p hp => h p (List.mem_cons_of_mem _ hp))]

theorem foldl_objInsert_sorted (prs acc : List (String × Json))
    (h : objSorted (acc ++ prs)) :
    prs.foldl (fun a kv => objInsert kv.1 kv.2 a) acc = acc ++ prs := by
  induction prs generalizing acc with
  | nil => simp
  | cons kv rest ih =>
    obtain ⟨k, v⟩ := kv
    have hacc : ∀ p ∈ acc, strLt p.1 k = true := by
      intro p hp
      have := (List.pairwise_append.mp h).2.2 p hp (k, v) (List.mem_cons_self _ _)
      exact this
    rw [List.foldl_cons]
    have hins : objInsert k v acc = acc ++ [(k, v)] :=
      objInsert_append_of_gt k v acc hacc
    rw [hins, ih (acc ++ [(k, v)]) (by simpa using h)]
    simp

/-! ## Lemmas: the document built by the save loop -/

theorem Value.toJson_isSimple (v : Value) : v.toJson.isSimple = true := by
  cases v <;> rfl

theorem buildDoc_obj (fs : List ConfigVariable_t) (acc : List (String × Json)) :
    List.foldl (fun object v => v.save object) (Json.obj acc) fs
      = Json.obj (Config.buildKvs fs acc) := by
  induction fs generalizing acc with
  | nil => rfl
  | cons f rest ih =>
    rw [List.foldl_cons]
    exact ih (objInsert f.key_ f.value_.toJson acc)

theorem buildDoc_nil : Config.buildDoc [] = Json.null := rfl

theorem buildDoc_cons (f : ConfigVariable_t) (fs : List ConfigVariable_t) :
    Config.buildDoc (f :: fs) = Json.obj (Config.buildKvs (f :: fs) []) := by
  rw [Config.buildDoc, List.foldl_cons]
  exact buildDoc_obj fs (objInsert f.key_ f.value_.toJson [])

theorem buildKvs_sorted (fs : List ConfigVariable_t) (acc : List (String × Json))
    (h : objSorted acc) : objSorted (Config.buildKvs fs acc) := by
  induction fs generalizing acc with
  | nil => exact h
  | cons f rest ih => exact ih _ (objSorted_insert _ _ _ h)

theorem buildKvs_ne_nil (fs : List ConfigVariable_t) (acc : List (String × Json))
    (h : acc ≠ []) : Config.buildKvs fs acc ≠ [] := by
  induction fs generalizing acc with
  | nil => exact h
  | cons f rest ih => exact ih _ (objInsert_ne_nil _ _ _)

theorem buildKvs_simple (fs : List ConfigVariable_t) (acc : List (String × Json))
    (h : ∀ kv ∈ acc, (kv.2 : Json).isSimple = true) :
    ∀ kv ∈ Config.buildKvs fs acc, (kv.2 : Json).isSimple = true := by
  induction fs generalizing acc with
  | nil => exact h
  | cons f rest ih =>
    refine ih _ ?_
    intro kv hkv
    rcases objInsert_mem kv _ _ _ hkv with rfl | hkv'
    · exact Value.toJson_isSimple f.value_
    · exact h kv hkv'

theorem buildKvs_find_absent (fs : List ConfigVariable_t)
    (acc : List (String × Json)) (q : String)
    (h : q ∉ fs.map ConfigVariable_t.key_) :
    objFind q (Config.buildKvs fs acc) = objFind q acc := by
  induction fs generalizing acc with
  | nil => rfl
  | cons f rest ih =>
    simp only [List.map_cons, List.mem_cons] at h
    push_neg at h
    rw [Config.buildKvs, List.foldl_cons]
    rw [show List.foldl (fun a g => objInsert g.key_ g.value_.toJson a)
        (objInsert f.key_ f.value_.toJson acc) rest
        = Config.buildKvs rest (objInsert f.key_ f.value_.toJson acc) from rfl]
    rw [ih _ h.2, objFind_insert_ne q f.key_ _ acc h.1]

theorem buildKvs_find_self (fs : List ConfigVariable_t)
    (acc : List (String × Json)) (f : ConfigVariable_t) (hmem : f ∈ fs)
    (hnd : (fs.map ConfigVariable_t.key_).Nodup) :
    objFind f.key_ (Config.buildKvs fs acc) = some f.value_.toJson := by
  induction fs generalizing acc with
  | nil => cases hmem
  | cons g rest ih =>
    simp only [List.map_cons, List.nodup_cons] at hnd
    rcases List.mem_cons.mp hmem with rfl | hmem'
    · rw [Config.buildKvs, List.foldl_cons]
      rw [show List.foldl (fun a g => objInsert g.key_ g.value_.toJson a)
          (objInsert f.key_ f.value_.toJson acc) rest
          = Config.buildKvs rest (objInsert f.key_ f.value_.toJson acc) from rfl]
      rw [buildKvs_find_absent rest _ f.key_ hnd.1]
      exact objFind_insert_self _ _ _
    · exact ih _ hmem' hnd.2

theorem buildKvs_keys_perm (fs : List ConfigVariable_t)
    (acc : List (String × Json))
    (hnd : (fs.map ConfigVariable_t.key_).Nodup)
    (hdisj : ∀ f ∈ fs, f.key_ ∉ objKeys acc) :
    (objKeys (Config.buildKvs fs acc)).Perm
      (objKeys acc ++ fs.map ConfigVariable_t.key_) := by
  induction fs generalizing acc with
  | nil => simp [Config.buildKvs]
  | cons g rest ih =>
    simp only [List.map_cons, List.nodup_cons] at hnd
    have hg : g.key_ ∉ objKeys acc := hdisj g (List.mem_cons_self _ _)
    have hperm : (objKeys (objInsert g.key_ g.value_.toJson acc)).Perm
        (g.key_ :: objKeys acc) := objKeys_insert_perm _ _ _ hg
    have hdisj' : ∀ f ∈ rest, f.key_ ∉ objKeys (objInsert g.key_ g.value_.toJson acc) := by
      intro f hf hmem
      have : f.key_ ∈ g.key_ :: objKeys acc := hperm.mem_iff.mp hmem
      rcases List.mem_cons.mp this with heq | hmem'
      · exact hnd.1 (heq ▸ List.mem_map_of_mem ConfigVariable_t.key_ hf)
      · exact hdisj f (List.mem_cons_of_mem _ hf) hmem'
    rw [Config.buildKvs, List.foldl_cons]
    rw [show List.foldl (fun a f => objInsert f.key_ f.value_.toJson a)
        (objInsert g.key_ g.value_.toJson acc) rest
        = Config.buildKvs rest (objInsert g.key_ g.value_.toJson acc) from rfl]
    refine (ih _ hnd.2 hdisj').trans ?_
    refine (hperm.append_right (rest.map ConfigVariable_t.key_)).trans ?_
    simpa using
      (@List.perm_middle _ g.key_ (objKeys acc)
        (rest.map ConfigVariable_t.key_)).symm

/-! ## Lemmas: decimal digits round-trip -/

theorem digitChar_isDigit : ∀ d < 10, (Char.ofNat (48 + d)).isDigit = true := by decide

theorem digitChar_val : ∀ d < 10, (Char.ofNat (48 + d)).toNat - 48 = d := by decide

theorem digitChar_ne_zero : ∀ d < 10, d ≠ 0 → Char.ofNat (48 + d) ≠ '0' := by decide

theorem digitChar_props : ∀ d < 10,
    isWs (Char.ofNat (48 + d)) = false
    ∧ Char.ofNat (48 + d) ≠ '{' ∧ Char.ofNat (48 + d) ≠ '['
    ∧ Char.ofNat (48 + d) ≠ '"' ∧ Char.ofNat (48 + d) ≠ 't'
    ∧ Char.ofNat (48 + d) ≠ 'f' ∧ Char.ofNat (48 + d) ≠ 'n'
    ∧ Char.ofNat (48 + d) ≠ '-' := by decide

theorem natToDigitsAux_zero (fuel : Nat) : natToDigitsAux fuel 0 = [] := by
  cases fuel <;> simp [natToDigitsAux]

theorem natToDigitsAux_mem : ∀ fuel n, ∀ c ∈ natToDigitsAux fuel n,
    ∃ d, d < 10 ∧ c = Char.ofNat (48 + d) := by
  intro fuel
  induction fuel with
  | zero => intro n c hc; cases hc
  | succ fuel ih =>
    intro n c hc
    by_cases hn : n = 0
    · rw [hn, natToDigitsAux_zero] at hc
      cases hc
    · simp only [natToDigitsAux, hn, if_false, List.mem_append,
        List.mem_singleton] at hc
      rcases hc with hc | rfl
      · exact ih (n / 10) c hc
      · exact ⟨n % 10, Nat.mod_lt n (by norm_num), rfl⟩

theorem natToDigitsAux_foldl : ∀ fuel, ∀ n a, n < 10 ^ fuel →
    List.foldl (fun a c => a * 10 + (c.toNat - 48)) a (natToDigitsAux fuel n)
      = a * 10 ^ (natToDigitsAux fuel n).length + n := by
  intro fuel
  induction fuel with
  | zero =>
    intro n a h
    interval_cases n
    simp [natToDigitsAux]
  | succ fuel ih =>
    intro n a h
    by_cases hn : n = 0
    · rw [hn, natToDigitsAux_zero]
      simp
    · have hdiv : n / 10 < 10 ^ fuel := by
        rw [Nat.div_lt_iff_lt_mul (by norm_num : 0 < 10)]
        calc n < 10 ^ (fuel + 1) := h
          _ = 10 ^ fuel * 10 := by rw [pow_succ]
      simp only [natToDigitsAux, hn, if_false]
      rw [List.foldl_append, ih (n / 10) a hdiv]
      have hv : (Char.ofNat (48 + n % 10)).toNat - 48 = n % 10 :=
        digitChar_val (n % 10) (Nat.mod_lt n (by norm_num))
      simp only [List.foldl_cons, List.foldl_nil, List.length_append,
        List.length_singleton, hv]
      have hdm : n / 10 * 10 + n % 10 = n := Nat.div_add_mod' n 10
      calc (a * 10 ^ (natToDigitsAux fuel (n / 10)).length + n / 10) * 10 + n % 10
      _ = a * (10 ^ (natToDigitsAux fuel (n / 10)).length * 10)
            + (n / 10 * 10 + n % 10) := by ring
      _ = a * 10 ^ ((natToDigitsAux fuel (n / 10)).length + 1) + n := by
            rw [hdm, pow_succ]

theorem natToDigitsAux_head : ∀ fuel n, n ≠ 0 → n < 10 ^ fuel →
    ∃ d ds, natToDigitsAux fuel n = Char.ofNat (48 + d) :: ds ∧ d < 10 ∧ d ≠ 0 := by
  intro fuel
  induction fuel with
  | zero => intro n hn h; interval_cases n; exact absurd rfl hn
  | succ fuel ih =>
    intro n hn h
    by_cases hq : n / 10 = 0
    · have hlt : n < 10 := by omega
      refine ⟨n % 10, [], ?_, Nat.mod_lt n (by norm_num), ?_⟩
      · simp only [natToDigitsAux, hn, if_false, hq, natToDigitsAux_zero]
        rfl
      · rwa [Nat.mod_eq_of_lt hlt]
    · have hdiv : n / 10 < 10 ^ fuel := by
        rw [Nat.div_lt_iff_lt_mul (by norm_num : 0 < 10)]
        calc n < 10 ^ (fuel + 1) := h
          _ = 10 ^ fuel * 10 := by rw [pow_succ]
      obtain ⟨d, ds, heq, hd10, hd0⟩ := ih (n / 10) hq hdiv
      refine ⟨d, ds ++ [Char.ofNat (48 + n % 10)], ?_, hd10, hd0⟩
      simp only [natToDigitsAux, hn, if_false, heq, List.cons_append]

theorem natToDigits_val (n : Nat) : digitsToNat (natToDigits n) = n := by
  by_cases hn : n = 0
  · subst hn; decide
  · have hlt : n < 10 ^ (n + 1) :=
      lt_of_lt_of_le (Nat.lt_pow_self (by norm_num) n)
        (Nat.pow_le_pow_right (by norm_num) (Nat.le_succ n))
    rw [natToDigits, if_neg hn, digitsToNat,
      natToDigitsAux_foldl (n + 1) n 0 hlt]
    simp

theorem natToDigits_mem (n : Nat) :
    ∀ c ∈ natToDigits n, ∃ d, d < 10 ∧ c = Char.ofNat (48 + d) := by
  by_cases hn : n = 0
  · subst hn
    intro c hc
    rw [natToDigits] at hc
    simp only [eq_self_iff_true, if_true, List.mem_singleton] at hc
    exact ⟨0, by norm_num, by rw [hc]⟩
  · rw [natToDigits, if_neg hn]
    exact natToDigitsAux_mem (n + 1) n

theorem natToDigits_shape (n : Nat) :
    ∃ d ds, natToDigits n = Char.ofNat (48 + d) :: ds ∧ d < 10
      ∧ (d = 0 → ds = []) := by
  by_cases hn : n = 0
  · subst hn
    exact ⟨0, [], by decide, by norm_num, fun _ => rfl⟩
  · have hlt : n < 10 ^ (n + 1) :=
      lt_of_lt_of_le (Nat.lt_pow_self (by norm_num) n)
        (Nat.pow_le_pow_right (by norm_num) (Nat.le_succ n))
    obtain ⟨d, ds, heq, hd10, hd0⟩ := natToDigitsAux_head (n + 1) n hn hlt
    rw [natToDigits, if_neg hn]
    exact ⟨d, ds, heq, hd10, fun h => absurd h hd0⟩

/-! ## Lemmas: one-step unfolding of the parser -/

theorem parseNumber_cons (c : Char) (cs : List Char) :
    parseNumber (c :: cs) = if c = '-'
      then (parseDigits cs).map (fun p => (Json.num (-(p.1 : Int)), p.2))
      else (parseDigits (c :: cs)).map (fun p => (Json.num ((p.1 : Int)), p.2)) := rfl

theorem parseValue_succ (fuel : Nat) (cs : List Char) :
    parseValue (fuel + 1) cs = match skipWs cs with
      | [] => none
      | c :: rest =>
        if c = '{' then parseObjFirst fuel rest
        else if c = '[' then parseArrFirst fuel rest
        else if c = '"' then
          (parseStringBody (rest.length + 1) rest).map
            (fun p => (Json.str (String.mk p.1), p.2))
        else if c = 't' then
          (parseLiteralTail ['r', 'u', 'e'] rest).map (fun r => (Json.bool true, r))
        else if c = 'f' then
          (parseLiteralTail ['a', 'l', 's', 'e'] rest).map (fun r => (Json.bool false, r))
        else if c = 'n' then
          (parseLiteralTail ['u', 'l', 'l'] rest).map (fun r => (Json.null, r))
        else parseNumber (c :: rest) := rfl

theorem parseObjFirst_succ (fuel : Nat) (cs : List Char) :
    parseObjFirst (fuel + 1) cs = match skipWs cs with
      | [] => none
      | c :: rest =>
        if c = '}' then some (Json.obj [], rest)
        else parseObjRest fuel [] (c :: rest) := rfl

theorem parseObjRest_succ (fuel : Nat) (acc : List (String × Json)) (cs : List Char) :
    parseObjRest (fuel + 1) acc cs = match skipWs cs with
      | [] => none
      | c :: rest =>
        if c = '"' then
          match parseStringBody (rest.length + 1) rest with
          | none => none
          | some (k, rest1) => parseMemberColon fuel acc (String.mk k) rest1
        else none := rfl

theorem parseMemberColon_succ (fuel : Nat) (acc : List (String × Json))
    (k : String) (cs : List Char) :
    parseMemberColon (fuel + 1) acc k cs = match skipWs cs with
      | [] => none
      | c1 :: rest2 =>
        if c1 = ':' then
          match parseValue fuel rest2 with
          | none => none
          | some (v, rest3) => parseMemberNext fuel (objInsert k v acc) rest3
        else none := rfl

theorem parseMemberNext_succ (fuel : Nat) (acc : List (String × Json))
    (cs : List Char) :
    parseMemberNext (fuel + 1) acc cs = match skipWs cs with
      | [] => none
      | c2 :: rest4 =>
        if c2 = ',' then parseObjRest fuel acc rest4
        else if c2 = '}' then some (Json.obj acc, rest4)
        else none := rfl

/-! ## Lemmas: number token round-trip -/

theorem skipWs_cons (c : Char) (cs : List Char) (h : isWs c = false) :
    skipWs (c :: cs) = c :: cs := by
  simp [skipWs, List.dropWhile_cons, h]

theorem numBoundary_cons (c : Char) (rest : List Char)
    (h : numBoundary (c :: rest) = true) :
    c.isDigit = false ∧ c ≠ '.' ∧ c ≠ 'e' ∧ c ≠ 'E' := by
  simp only [numBoundary, Bool.and_eq_true, Bool.not_eq_true',
    decide_eq_false_iff_not] at h
  exact ⟨h.1.1.1, h.1.1.2, h.1.2, h.2⟩

theorem numBoundary_floatStart (cs : List Char) (h : numBoundary cs = true) :
    floatStart cs = false := by
  cases cs with
  | nil => rfl
  | cons c rest =>
    obtain ⟨_, h2, h3, h4⟩ := numBoundary_cons c rest h
    simp [floatStart, h2, h3, h4]

theorem digits_takeWhile (xs rest : List Char)
    (hxs : ∀ c ∈ xs, c.isDigit = true) (hrest : numBoundary rest = true) :
    (xs ++ rest).takeWhile Char.isDigit = xs
    ∧ (xs ++ rest).dropWhile Char.isDigit = rest := by
  induction xs with
  | nil =>
    simp only [List.nil_append]
    cases rest with
    | nil => simp
    | cons c rest' =>
      have hc := (numBoundary_cons c rest' hrest).1
      constructor
      · exact List.takeWhile_cons_of_neg (by simp [hc])
      · exact List.dropWhile_cons_of_neg (by simp [hc])
  | cons x xs' ih =>
    have hx := hxs x (List.mem_cons_self _ _)
    have ih' := ih (fun c hc => hxs c (List.mem_cons_of_mem _ hc))
    constructor
    · rw [List.cons_append, List.takeWhile_cons_of_pos (by simp [hx]), ih'.1]
    · rw [List.cons_append, List.dropWhile_cons_of_pos (by simp [hx]), ih'.2]

theorem parseDigits_natToDigits (n : Nat) (rest : List Char)
    (hrest : numBoundary rest = true) :
    parseDigits (natToDigits n ++ rest) = some (n, rest) := by
  have hdig : ∀ c ∈ natToDigits n, c.isDigit = true := by
    intro c hc
    obtain ⟨d, hd, rfl⟩ := natToDigits_mem n c hc
    exact digitChar_isDigit d hd
  obtain ⟨htake, hdrop⟩ := digits_takeWhile (natToDigits n) rest hdig hrest
  obtain ⟨d, ds, heq, hd10, hlead⟩ := natToDigits_shape n
  have hcond : ¬(Char.ofNat (48 + d) = '0' ∧ ds ≠ []) := by
    by_cases hd0 : d = 0
    · intro hand
      exact hand.2 (hlead hd0)
    · intro hand
      exact digitChar_ne_zero d hd10 hd0 hand.1
  rw [parseDigits, htake, heq]
  simp only [if_neg hcond]
  have hdrop' : List.dropWhile Char.isDigit ((Char.ofNat (48 + d) :: ds) ++ rest)
      = rest := by rw [← heq]; exact hdrop
  rw [hdrop', numBoundary_floatStart rest hrest]
  simp only [Bool.false_eq_true, if_false, ← heq, natToDigits_val]

theorem parseNumber_dumpInt (n : Int) (rest : List Char)
    (hrest : numBoundary rest = true) :
    parseNumber (dumpInt n ++ rest) = some (Json.num n, rest) := by
  by_cases hn : n < 0
  · have hdump : dumpInt n = '-' :: natToDigits n.natAbs := by
      rw [dumpInt, if_pos hn]
    rw [hdump, List.cons_append, parseNumber_cons]
    simp only [eq_self_iff_true, if_true]
    rw [parseDigits_natToDigits n.natAbs rest hrest]
    simp only [Option.map_some']
    have habs : ((n.natAbs : Int)) = -n := Int.ofNat_natAbs_of_nonpos (le_of_lt hn)
    rw [habs, neg_neg]
  · obtain ⟨d, ds, heq, hd10, _⟩ := natToDigits_shape n.toNat
    have hne : Char.ofNat (48 + d) ≠ '-' := (digitChar_props d hd10).2.2.2.2.2.2.2
    have hdump : dumpInt n = Char.ofNat (48 + d) :: ds := by
      rw [dumpInt, if_neg hn, heq]
    have hdump2 : dumpInt n = natToDigits n.toNat := by rw [dumpInt, if_neg hn]
    rw [hdump, List.cons_append, parseNumber_cons]
    simp only [if_neg hne]
    rw [← List.cons_append, ← hdump, hdump2,
      parseDigits_natToDigits n.toNat rest hrest]
    simp only [Option.map_some']
    rw [Int.toNat_of_nonneg (not_lt.mp hn)]

theorem parseValue_cons (fuel : Nat) (c : Char) (cs : List Char)
    (h : isWs c = false) :
    parseValue (fuel + 1) (c :: cs) =
      (if c = '{' then parseObjFirst fuel cs
      else if c = '[' then parseArrFirst fuel cs
      else if c = '"' then
        (parseStringBody (cs.length + 1) cs).map
          (fun p => (Json.str (String.mk p.1), p.2))
      else if c = 't' then
        (parseLiteralTail ['r', 'u', 'e'] cs).map (fun r => (Json.bool true, r))
      else if c = 'f' then
        (parseLiteralTail ['a', 'l', 's', 'e'] cs).map (fun r => (Json.bool false, r))
      else if c = 'n' then
        (parseLiteralTail ['u', 'l', 'l'] cs).map (fun r => (Json.null, r))
      else parseNumber (c :: cs)) := by
  rw [parseValue_succ, skipWs_cons c cs h]

theorem parseObjFirst_cons (fuel : Nat) (c : Char) (cs : List Char)
    (h : isWs c = false) :
    parseObjFirst (fuel + 1) (c :: cs) =
      (if c = '}' then some (Json.obj [], cs)
      else parseObjRest fuel [] (c :: cs)) := by
  rw [parseObjFirst_succ, skipWs_cons c cs h]

theorem parseValue_dumpInt (fuel : Nat) (n : Int) (rest : List Char)
    (hrest : numBoundary rest = true) :
    parseValue (fuel + 1) (dumpInt n ++ rest) = some (Json.num n, rest) := by
  by_cases hn : n < 0
  · have hdump : dumpInt n = '-' :: natToDigits n.natAbs := by
      rw [dumpInt, if_pos hn]
    rw [hdump, List.cons_append, parseValue_cons fuel _ _ (by decide)]
    rw [← List.cons_append, ← hdump]
    exact parseNumber_dumpInt n rest hrest
  · obtain ⟨d, ds, heq, hd10, _⟩ := natToDigits_shape n.toNat
    obtain ⟨hws, hbrace, hbrack, hquote, ht, hf, hnn, hminus⟩ :=
      digitChar_props d hd10
    have hdump : dumpInt n = Char.ofNat (48 + d) :: ds := by
      rw [dumpInt, if_neg hn, heq]
    rw [hdump, List.cons_append, parseValue_cons fuel _ _ hws]
    simp only [if_neg hbrace, if_neg hbrack, if_neg hquote, if_neg ht,
      if_neg hf, if_neg hnn]
    rw [← List.cons_append, ← hdump]
    exact parseNumber_dumpInt n rest hrest

/-! ## Lemmas: string literal round-trip -/

theorem hexVal_hexDigit : ∀ x < 16, hexVal (hexDigit x) = some x := by decide

theorem parseStringBody_cons (fuel : Nat) (c : Char) (cs : List Char) :
    parseStringBody (fuel + 1) (c :: cs) =
      (if c = '"' then some ([], cs)
      else if c = '\\' then
        match cs with
        | [] => none
        | e :: rest1 =>
          match unescape e with
          | some decoded =>
            (parseStringBody fuel rest1).map (fun p => (decoded :: p.1, p.2))
          | none =>
            if e = 'u' then
              match rest1 with
              | h1 :: h2 :: h3 :: h4 :: rest2 =>
                match hexVal h1, hexVal h2, hexVal h3, hexVal h4 with
                | some a, some b, some hc, some hd =>
                  let code := ((a * 16 + b) * 16 + hc) * 16 + hd
                  if 55296 ≤ code ∧ code ≤ 57343 then none
                  else (parseStringBody fuel rest2).map
                    (fun p => (Char.ofNat code :: p.1, p.2))
                | _, _, _, _ => none
              | _ => none
            else none
      else if c.toNat < 32 then none
      else (parseStringBody fuel cs).map (fun p => (c :: p.1, p.2))) := rfl

theorem parseStringBody_unicode (fuel : Nat) (hi lo : Nat) (hhi : hi < 16)
    (hlo : lo < 16)
    (hcode : ¬(55296 ≤ hi * 16 + lo ∧ hi * 16 + lo ≤ 57343))
    (tail : List Char) :
    parseStringBody (fuel + 1)
        ('\\' :: 'u' :: '0' :: '0' :: hexDigit hi :: hexDigit lo :: tail)
      = (parseStringBody fuel tail).map
          (fun p => (Char.ofNat (hi * 16 + lo) :: p.1, p.2)) := by
  have hred : parseStringBody (fuel + 1)
      ('\\' :: 'u' :: '0' :: '0' :: hexDigit hi :: hexDigit lo :: tail)
      = (match hexVal '0', hexVal '0', hexVal (hexDigit hi), hexVal (hexDigit lo) with
        | some a, some b, some hc, some hd =>
          let code := ((a * 16 + b) * 16 + hc) * 16 + hd
          if 55296 ≤ code ∧ code ≤ 57343 then none
          else (parseStringBody fuel tail).map
            (fun p => (Char.ofNat code :: p.1, p.2))
        | _, _, _, _ => none) := rfl
  rw [hred, hexVal_hexDigit hi hhi, hexVal_hexDigit lo hlo]
  show (if 55296 ≤ ((0 * 16 + 0) * 16 + hi) * 16 + lo
          ∧ ((0 * 16 + 0) * 16 + hi) * 16 + lo ≤ 57343 then none
        else (parseStringBody fuel tail).map
          (fun p => (Char.ofNat (((0 * 16 + 0) * 16 + hi) * 16 + lo) :: p.1, p.2)))
      = (parseStringBody fuel tail).map
          (fun p => (Char.ofNat (hi * 16 + lo) :: p.1, p.2))
  have harith : ((0 * 16 + 0) * 16 + hi) * 16 + lo = hi * 16 + lo := by ring
  simp only [harith]
  rw [if_neg hcode]

theorem escapeChar_length_pos (c : Char) : 1 ≤ (escapeChar c).length := by
  rw [escapeChar]
  repeat' split
  all_goals simp

theorem escapeStr_length (s : List Char) : s.length ≤ (escapeStr s).length := by
  induction s with
  | nil => simp [escapeStr]
  | cons c s' ih =>
    have : escapeStr (c :: s') = escapeChar c ++ escapeStr s' := by
      simp [escapeStr]
    rw [this, List.length_append, List.length_cons]
    have := escapeChar_length_pos c
    omega

theorem parseStringBody_escape : ∀ (s : List Char) (fuel : Nat) (rest : List Char),
    s.length < fuel →
    parseStringBody fuel (escapeStr s ++ '"' :: rest) = some (s, rest) := by
  intro s
  induction s with
  | nil =>
    intro fuel rest hfuel
    cases fuel with
    | zero => omega
    | succ f =>
      show parseStringBody (f + 1) ('"' :: rest) = some ([], rest)
      rw [parseStringBody_cons]
      simp
  | cons c s' ih =>
    intro fuel rest hfuel
    cases fuel with
    | zero => omega
    | succ f =>
      have hf : s'.length < f := by
        rw [List.length_cons] at hfuel
        omega
      have hstep : escapeStr (c :: s') ++ '"' :: rest
          = escapeChar c ++ (escapeStr s' ++ '"' :: rest) := by
        simp [escapeStr]
      rw [hstep]
      by_cases h1 : c = '"'
      · subst h1
        have hred : parseStringBody (f + 1)
            (escapeChar '"' ++ (escapeStr s' ++ '"' :: rest))
            = (parseStringBody f (escapeStr s' ++ '"' :: rest)).map
                (fun p => ('"' :: p.1, p.2)) := rfl
        rw [hred, ih f rest hf]
        rfl
      · by_cases h2 : c = '\\'
        · subst h2
          have hred : parseStringBody (f + 1)
              (escapeChar '\\' ++ (escapeStr s' ++ '"' :: rest))
              = (parseStringBody f (escapeStr s' ++ '"' :: rest)).map
                  (fun p => ('\\' :: p.1, p.2)) := rfl
          rw [hred, ih f rest hf]
          rfl
        · by_cases h3 : c = '\x08'
          · subst h3
            have hred : parseStringBody (f + 1)
                (escapeChar '\x08' ++ (escapeStr s' ++ '"' :: rest))
                = (parseStringBody f (escapeStr s' ++ '"' :: rest)).map
                    (fun p => ('\x08' :: p.1, p.2)) := rfl
            rw [hred, ih f rest hf]
            rfl
          · by_cases h4 : c = '\x0c'
            · subst h4
              have hred : parseStringBody (f + 1)
                  (escapeChar '\x0c' ++ (escapeStr s' ++ '"' :: rest))
                  = (parseStringBody f (escapeStr s' ++ '"' :: rest)).map
                      (fun p => ('\x0c' :: p.1, p.2)) := rfl
              rw [hred, ih f rest hf]
              rfl
            · by_cases h5 : c = '\n'
              · subst h5
                have hred : parseStringBody (f + 1)
                    (escapeChar '\n' ++ (escapeStr s' ++ '"' :: rest))
                    = (parseStringBody f (escapeStr s' ++ '"' :: rest)).map
                        (fun p => ('\n' :: p.1, p.2)) := rfl
                rw [hred, ih f rest hf]
                rfl
              · by_cases h6 : c = '\r'
                · subst h6
                  have hred : parseStringBody (f + 1)
                      (escapeChar '\r' ++ (escapeStr s' ++ '"' :: rest))
                      = (parseStringBody f (escapeStr s' ++ '"' :: rest)).map
                          (fun p => ('\r' :: p.1, p.2)) := rfl
                  rw [hred, ih f rest hf]
                  rfl
                · by_cases h7 : c = '\t'
                  · subst h7
                    have hred : parseStringBody (f + 1)
                        (escapeChar '\t' ++ (escapeStr s' ++ '"' :: rest))
                        = (parseStringBody f (escapeStr s' ++ '"' :: rest)).map
                            (fun p => ('\t' :: p.1, p.2)) := rfl
                    rw [hred, ih f rest hf]
                    rfl
                  · by_cases h8 : c.toNat < 32
                    · have hesc : escapeChar c
                          = ['\\', 'u', '0', '0', hexDigit (c.toNat / 16),
                             hexDigit (c.toNat % 16)] := by
                        rw [escapeChar, if_neg h1, if_neg h2, if_neg h3, if_neg h4,
                          if_neg h5, if_neg h6, if_neg h7, if_pos h8]
                      rw [hesc, List.cons_append, List.cons_append, List.cons_append,
                        List.cons_append, List.cons_append, List.cons_append,
                        List.nil_append]
                      rw [parseStringBody_unicode f (c.toNat / 16) (c.toNat % 16)
                        (by omega) (Nat.mod_lt _ (by norm_num)) (by omega) _]
                      rw [ih f rest hf]
                      have hc : Char.ofNat (c.toNat / 16 * 16 + c.toNat % 16) = c := by
                        rw [Nat.div_add_mod' c.toNat 16, Char.ofNat_toNat]
                      rw [hc]
                      rfl
                    · have hesc : escapeChar c = [c] := by
                        rw [escapeChar, if_neg h1, if_neg h2, if_neg h3, if_neg h4,
                          if_neg h5, if_neg h6, if_neg h7, if_neg h8]
                      rw [hesc, List.singleton_append, parseStringBody_cons,
                        if_neg h1, if_neg h2, if_neg h8, ih f rest hf]
                      rfl

/-! ## Lemmas: round-trip of a dumped document through the parser -/

theorem parseValue_dumpSimple (fuel : Nat) (v : Json) (hv : v.isSimple = true)
    (rest : List Char) (hrest : numBoundary rest = true) :
    parseValue (fuel + 1) (dumpJson v ++ rest) = some (v, rest) := by
  cases v with
  | num n => exact parseValue_dumpInt fuel n rest hrest
  | bool b => cases b <;> rfl
  | str s =>
    have hsh : dumpJson (Json.str s) ++ rest
        = '"' :: (escapeStr s.data ++ '"' :: rest) := by
      show ('"' :: (escapeStr s.data ++ ['"'])) ++ rest = _
      simp
    rw [hsh, parseValue_cons fuel '"' _ (by decide)]
    show (parseStringBody ((escapeStr s.data ++ '"' :: rest).length + 1)
        (escapeStr s.data ++ '"' :: rest)).map
        (fun p => (Json.str (String.mk p.1), p.2)) = some (Json.str s, rest)
    rw [parseStringBody_escape s.data _ rest (by
      have := escapeStr_length s.data
      simp only [List.length_append, List.length_cons]
      omega)]
    rfl
  | null => simp [Json.isSimple] at hv
  | arr es => simp [Json.isSimple] at hv
  | obj kvs => simp [Json.isSimple] at hv

theorem parseObjFirst_quote (fuel : Nat) (body : List Char) :
    parseObjFirst (fuel + 1) ('"' :: body) = parseObjRest fuel [] ('"' :: body) := rfl

theorem parseObjRest_quote (fuel : Nat) (acc : List (String × Json))
    (body : List Char) :
    parseObjRest (fuel + 1) acc ('"' :: body)
      = match parseStringBody (body.length + 1) body with
        | none => none
        | some (k1, rest1) => parseMemberColon fuel acc (String.mk k1) rest1 := rfl

theorem parseMemberColon_colon (fuel : Nat) (acc : List (String × Json))
    (k : String) (cs : List Char) :
    parseMemberColon (fuel + 1) acc k (':' :: cs)
      = match parseValue fuel cs with
        | none => none
        | some (v, rest3) => parseMemberNext fuel (objInsert k v acc) rest3 := rfl

theorem parseMemberNext_comma (fuel : Nat) (acc : List (String × Json))
    (cs : List Char) :
    parseMemberNext (fuel + 1) acc (',' :: cs) = parseObjRest fuel acc cs := rfl

theorem parseMemberNext_brace (fuel : Nat) (acc : List (String × Json))
    (cs : List Char) :
    parseMemberNext (fuel + 1) acc ('}' :: cs) = some (Json.obj acc, cs) := rfl

theorem dumpMembers_boundary (prs : List (String × Json)) (rest : List Char) :
    numBoundary (dumpMembers prs ++ '}' :: rest) = true := by
  cases prs <;> rfl

theorem parseObjRest_member_step (f : Nat) (acc : List (String × Json))
    (k : String) (v : Json) (hv : v.isSimple = true) (X : List Char)
    (hbX : numBoundary X = true) :
    parseObjRest (f + 3) acc (dumpMember (k, v) ++ X)
      = parseMemberNext (f + 1) (objInsert k v acc) X := by
  have hshape : dumpMember (k, v) ++ X
      = '"' :: (escapeStr k.data ++ '"' :: (':' :: (dumpJson v ++ X))) := by
    show ('"' :: (escapeStr k.data ++ '"' :: ':' :: dumpJson v)) ++ X = _
    simp
  rw [hshape, show f + 3 = f + 2 + 1 from rfl, parseObjRest_quote]
  rw [parseStringBody_escape k.data _ _ (by
    have := escapeStr_length k.data
    simp only [List.length_append, List.length_cons]
    omega)]
  show parseMemberColon (f + 2) acc (String.mk k.data)
      (':' :: (dumpJson v ++ X)) = parseMemberNext (f + 1) (objInsert k v acc) X
  rw [show f + 2 = f + 1 + 1 from rfl, parseMemberColon_colon]
  rw [parseValue_dumpSimple f v hv X hbX]

theorem parseObjRest_members :
    ∀ (prs : List (String × Json)) (kv : String × Json) (fuel : Nat)
      (acc : List (String × Json)) (rest : List Char),
    (kv.2 : Json).isSimple = true →
    (∀ q ∈ prs, (q.2 : Json).isSimple = true) →
    3 * prs.length + 3 ≤ fuel →
    parseObjRest fuel acc (dumpMember kv ++ (dumpMembers prs ++ '}' :: rest))
      = some (Json.obj ((kv :: prs).foldl (fun a q => objInsert q.1 q.2 a) acc),
          rest) := by
  intro prs
  induction prs with
  | nil =>
    intro kv fuel acc rest hkv _ hfuel
    obtain ⟨k, v⟩ := kv
    obtain ⟨f, rfl⟩ : ∃ f, fuel = f + 3 := ⟨fuel - 3, by omega⟩
    rw [parseObjRest_member_step f acc k v hkv _ (dumpMembers_boundary [] rest)]
    show parseMemberNext (f + 1) (objInsert k v acc) ('}' :: rest) = _
    rw [parseMemberNext_brace]
    rfl
  | cons q prs' ih =>
    intro kv fuel acc rest hkv hprs hfuel
    obtain ⟨k, v⟩ := kv
    obtain ⟨f, rfl⟩ : ∃ f, fuel = f + 3 := ⟨fuel - 3, by omega⟩
    rw [parseObjRest_member_step f acc k v hkv _
      (dumpMembers_boundary (q :: prs') rest)]
    have hX : dumpMembers (q :: prs') ++ '}' :: rest
        = ',' :: (dumpMember q ++ (dumpMembers prs' ++ '}' :: rest)) := by
      show (',' :: dumpMember q ++ dumpMembers prs') ++ '}' :: rest = _
      simp
    rw [hX, parseMemberNext_comma]
    rw [ih q f (objInsert k v acc) rest (hprs q (List.mem_cons_self _ _))
      (fun p hp => hprs p (List.mem_cons_of_mem _ hp)) (by
        simp only [List.length_cons] at hfuel
        omega)]
    rfl

theorem natToDigits_ne_nil (n : Nat) : natToDigits n ≠ [] := by
  obtain ⟨d, ds, heq, _, _⟩ := natToDigits_shape n
  simp [heq]

theorem dumpJson_length_pos (j : Json) : 1 ≤ (dumpJson j).length := by
  cases j with
  | null => decide
  | bool b => cases b <;> decide
  | num n =>
    show 1 ≤ (dumpInt n).length
    rw [dumpInt]
    by_cases hn : n < 0
    · rw [if_pos hn]
      simp
    · rw [if_neg hn]
      have := natToDigits_ne_nil n.toNat
      cases hh : natToDigits n.toNat with
      | nil => exact absurd hh this
      | cons a b => simp [hh]
  | str s =>
    show 1 ≤ ('"' :: (escapeStr s.data ++ ['"'])).length
    simp
  | arr es =>
    cases es with
    | nil => decide
    | cons e es' =>
      show 1 ≤ ('[' :: (dumpJson e ++ dumpElems es') ++ [']']).length
      simp
  | obj kvs =>
    cases kvs with
    | nil => decide
    | cons kv kvs' =>
      show 1 ≤ ('{' :: (dumpMember kv ++ dumpMembers kvs') ++ ['}']).length
      simp

theorem dumpMember_length (q : String × Json) : 4 ≤ (dumpMember q).length := by
  obtain ⟨k, v⟩ := q
  show 4 ≤ ('"' :: (escapeStr k.data ++ '"' :: ':' :: dumpJson v)).length
  have := dumpJson_length_pos v
  simp only [List.length_cons, List.length_append]
  omega

theorem dumpMembers_length (prs : List (String × Json)) :
    3 * prs.length ≤ (dumpMembers prs).length := by
  induction prs with
  | nil => simp [show dumpMembers [] = [] from rfl]
  | cons q t ih =>
    show 3 * (t.length + 1) ≤ (',' :: dumpMember q ++ dumpMembers t).length
    have := dumpMember_length q
    simp only [List.length_cons, List.length_append]
    omega

theorem parseValue_dumpObj (prs : List (String × Json)) (fuel : Nat)
    (rest : List Char) (hne : prs ≠ [])
    (hsimple : ∀ q ∈ prs, (q.2 : Json).isSimple = true)
    (hsorted : objSorted prs) (hfuel : 3 * prs.length + 3 ≤ fuel) :
    parseValue (fuel + 2) (dumpJson (Json.obj prs) ++ rest)
      = some (Json.obj prs, rest) := by
  obtain ⟨kv, prs', rfl⟩ : ∃ kv prs', prs = kv :: prs' := by
    cases prs with
    | nil => exact absurd rfl hne
    | cons a b => exact ⟨a, b, rfl⟩
  have hdumpobj : dumpJson (Json.obj (kv :: prs')) ++ rest
      = '{' :: (dumpMember kv ++ (dumpMembers prs' ++ '}' :: rest)) := by
    show ('{' :: (dumpMember kv ++ dumpMembers prs') ++ ['}']) ++ rest = _
    simp
  rw [hdumpobj, show fuel + 2 = (fuel + 1) + 1 from rfl,
    parseValue_cons (fuel + 1) '{' _ (by decide)]
  show parseObjFirst (fuel + 1) (dumpMember kv ++ (dumpMembers prs' ++ '}' :: rest))
      = some (Json.obj (kv :: prs'), rest)
  obtain ⟨k, v⟩ := kv
  have hmem : dumpMember (k, v) ++ (dumpMembers prs' ++ '}' :: rest)
      = '"' :: ((escapeStr k.data ++ '"' :: ':' :: dumpJson v)
          ++ (dumpMembers prs' ++ '}' :: rest)) := rfl
  rw [hmem, parseObjFirst_quote, ← hmem]
  rw [parseObjRest_members prs' (k, v) fuel [] rest
    (hsimple _ (List.mem_cons_self _ _))
    (fun q hq => hsimple q (List.mem_cons_of_mem _ hq))
    (by simp only [List.length_cons] at hfuel; omega)]
  rw [foldl_objInsert_sorted ((k, v) :: prs') [] (by simpa using hsorted)]
  rw [List.nil_append]

theorem json_parse_dumpObj (prs : List (String × Json)) (hne : prs ≠ [])
    (hsimple : ∀ q ∈ prs, (q.2 : Json).isSimple = true)
    (hsorted : objSorted prs) :
    json_parse (String.mk (dumpJson (Json.obj prs))) = some (Json.obj prs) := by
  have hfuel : 3 * prs.length + 3 ≤ 2 * (dumpJson (Json.obj prs)).length + 2 := by
    obtain ⟨kv, prs', rfl⟩ : ∃ kv prs', prs = kv :: prs' := by
      cases prs with
      | nil => exact absurd rfl hne
      | cons a b => exact ⟨a, b, rfl⟩
    have h1 : (dumpJson (Json.obj (kv :: prs'))).length
        = 2 + (dumpMember kv).length + (dumpMembers prs').length := by
      show ('{' :: (dumpMember kv ++ dumpMembers prs') ++ ['}']).length = _
      simp only [List.length_cons, List.length_append, List.length_singleton,
        List.length_nil]
      omega
    have h2 := dumpMember_length kv
    have h3 := dumpMembers_length prs'
    simp only [List.length_cons]
    omega
  have hmain := parseValue_dumpObj prs
    (2 * (dumpJson (Json.obj prs)).length + 2) [] hne hsimple hsorted hfuel
  rw [List.append_nil] at hmain
  rw [json_parse]
  have hdata : (String.mk (dumpJson (Json.obj prs))).data
      = dumpJson (Json.obj prs) := rfl
  rw [hdata]
  have harith : 2 * (dumpJson (Json.obj prs)).length + 4
      = (2 * (dumpJson (Json.obj prs)).length + 2) + 2 := by omega
  rw [harith, hmain]
  rfl

/-! ## Lemmas: the load loop of `Config::set` -/

theorem getTyped_toJson (v : Value) : Json.getTyped v.tag v.toJson = some v := by
  cases v <;> rfl

theorem list_map_self {α : Type} (l : List α) (f : α → α)
    (h : ∀ a ∈ l, f a = a) : l.map f = l := by
  induction l with
  | nil => rfl
  | cons x xs ih =>
    rw [List.map_cons, h x (List.mem_cons_self _ _),
      ih (fun a ha => h a (List.mem_cons_of_mem _ ha))]

theorem loadAll_ok (kvs : List (String × Json)) (fs : List ConfigVariable_t)
    (h : ∀ f ∈ fs, f.load kvs ≠ none) :
    Config.loadAll kvs fs = SetResult.ok (fs.map (fun f => f.loaded kvs)) := by
  induction fs with
  | nil => rfl
  | cons f rest ih =>
    obtain ⟨f', hf'⟩ := Option.ne_none_iff_exists'.mp (h f (List.mem_cons_self _ _))
    rw [Config.loadAll, hf', ih (fun g hg => h g (List.mem_cons_of_mem _ hg))]
    simp [ConfigVariable_t.loaded, hf']

theorem loadAll_typeErr (kvs : List (String × Json))
    (pre post : List ConfigVariable_t) (f : ConfigVariable_t)
    (hpre : ∀ g ∈ pre, g.load kvs ≠ none) (hf : f.load kvs = none) :
    Config.loadAll kvs (pre ++ f :: post)
      = SetResult.typeErr (pre.map (fun g => g.loaded kvs) ++ f :: post) := by
  induction pre with
  | nil => simp [Config.loadAll, hf]
  | cons g rest ih =>
    obtain ⟨g', hg'⟩ := Option.ne_none_iff_exists'.mp (hpre g (List.mem_cons_self _ _))
    rw [List.cons_append, Config.loadAll, hg',
      ih (fun q hq => hpre q (List.mem_cons_of_mem _ hq))]
    simp [ConfigVariable_t.loaded, hg']

theorem loadAll_isTypeErr (kvs : List (String × Json)) (fs : List ConfigVariable_t)
    (f : ConfigVariable_t) (hmem : f ∈ fs) (hf : f.load kvs = none) :
    (Config.loadAll kvs fs).isTypeErr = true := by
  induction fs with
  | nil => cases hmem
  | cons g rest ih =>
    by_cases hg : g.load kvs = none
    · rw [Config.loadAll, hg]
      rfl
    · obtain ⟨g', hg'⟩ := Option.ne_none_iff_exists'.mp hg
      have hfr : f ∈ rest := by
        rcases List.mem_cons.mp hmem with rfl | hr
        · exact absurd hf hg
        · exact hr
      have htail := ih hfr
      rw [Config.loadAll, hg']
      cases hLA : Config.loadAll kvs rest with
      | ok l => rw [hLA] at htail; cases htail
      | parseErr l => rw [hLA] at htail; cases htail
      | typeErr l => rfl

theorem load_self (variables_ : List ConfigVariable_t)
    (hnd : (variables_.map ConfigVariable_t.key_).Nodup)
    (g : ConfigVariable_t) (hg : g ∈ variables_) :
    g.load (Config.buildKvs variables_ []) = some g := by
  have hfind := buildKvs_find_self variables_ [] g hg hnd
  simp [ConfigVariable_t.load, hfind, getTyped_toJson]

theorem set_get_roundtrip (variables_ : List ConfigVariable_t)
    (hnd : (variables_.map ConfigVariable_t.key_).Nodup) :
    Config.set variables_ (Config.get variables_) = SetResult.ok variables_ := by
  cases variables_ with
  | nil => rfl
  | cons f fs =>
    have hdoc : Config.buildDoc (f :: fs)
        = Json.obj (Config.buildKvs (f :: fs) []) := buildDoc_cons f fs
    have hsorted : objSorted (Config.buildKvs (f :: fs) []) :=
      buildKvs_sorted _ _ (by simp [objSorted])
    have hsimple : ∀ q ∈ Config.buildKvs (f :: fs) [], (q.2 : Json).isSimple = true :=
      buildKvs_simple _ _ (by simp)
    have hne : Config.buildKvs (f :: fs) [] ≠ [] := by
      show Config.buildKvs fs (objInsert f.key_ f.value_.toJson []) ≠ []
      exact buildKvs_ne_nil fs _ (objInsert_ne_nil _ _ _)
    have hparse : json_parse (Config.get (f :: fs))
        = some (Json.obj (Config.buildKvs (f :: fs) [])) := by
      rw [Config.get, hdoc]
      exact json_parse_dumpObj _ hne hsimple hsorted
    have hload : ∀ g ∈ (f :: fs), g.load (Config.buildKvs (f :: fs) []) = some g :=
      fun g hg => load_self (f :: fs) hnd g hg
    rw [Config.set, hparse]
    show Config.loadAll (Config.buildKvs (f :: fs) []) (f :: fs)
        = SetResult.ok (f :: fs)
    rw [loadAll_ok _ _ (fun g hg => by rw [hload g hg]; simp)]
    rw [list_map_self (f :: fs) _ (fun g hg => by
      rw [ConfigVariable_t.loaded, hload g hg]
      rfl)]

/-! ## Claim theorems -/

/-- C1 (corrected): as stated the claim fails: with exceptions enabled (the
default), `nlohmann::json::parse` throws `parse_error` on text that is not
well-formed JSON, so `set("not json")` raises an error (while leaving every
field unchanged).  Amended claim, proved here: if parsing fails, `set`
raises the parse error and leaves every registered field unchanged; if
parsing succeeds but the top-level value is not an object, `set` is a
silent no-op leaving every registered field unchanged and raising no
error. -/
theorem claim_C1 (variables_ : List ConfigVariable_t) (text : String) :
    (json_parse text = none →
      Config.set variables_ text = SetResult.parseErr variables_)
    ∧ (∀ j, json_parse text = some j → j.isObject = false →
      Config.set variables_ text = SetResult.ok variables_) := by
  constructor
  · intro h
    rw [Config.set, h]
  · intro j hj hobj
    rw [Config.set, hj]
    cases j with
    | obj kvs => simp [Json.isObject] at hobj
    | null => rfl
    | bool b => rfl
    | num n => rfl
    | str s => rfl
    | arr es => rfl

/-- Witness for C1 at the spec's own two inputs. -/
theorem claim_C1_witness :
    (json_parse "not json" = none
      ∧ Config.set [⟨"volume", Value.vint 80⟩] "not json"
          = SetResult.parseErr [⟨"volume", Value.vint 80⟩])
    ∧ (json_parse "[1,2,3]" = some (Json.arr [Json.num 1, Json.num 2, Json.num 3])
      ∧ (Json.arr [Json.num 1, Json.num 2, Json.num 3]).isObject = false
      ∧ Config.set [⟨"volume", Value.vint 80⟩] "[1,2,3]"
          = SetResult.ok [⟨"volume", Value.vint 80⟩]) :=
  ⟨⟨rfl, (claim_C1 [⟨"volume", Value.vint 80⟩] "not json").1 rfl⟩,
   ⟨rfl, rfl, (claim_C1 [⟨"volume", Value.vint 80⟩] "[1,2,3]").2
      (Json.arr [Json.num 1, Json.num 2, Json.num 3]) rfl rfl⟩⟩

/-- Counterexample for C1 as stated: `set("not json")` raises (models the
thrown `json::parse_error`), contradicting "raises no error"; the fields do
stay unchanged. -/
theorem claim_C1_counterexample :
    Config.set [⟨"volume", Value.vint 80⟩] "not json"
      = SetResult.parseErr [⟨"volume", Value.vint 80⟩]
    ∧ (Config.set [⟨"volume", Value.vint 80⟩] "not json").throws = true :=
  ⟨rfl, rfl⟩

/-- C2 (corrected): the round-trip `set(get())` preserves every field's
value provided the registered keys are pairwise distinct (the spec's data
model assumes key uniqueness but registration does not enforce it; with a
duplicated key the claim fails, see the counterexample). -/
theorem claim_C2 (variables_ : List ConfigVariable_t)
    (hnd : (variables_.map ConfigVariable_t.key_).Nodup) :
    Config.set variables_ (Config.get variables_) = SetResult.ok variables_ :=
  set_get_roundtrip variables_ hnd

/-- Witness for C2 at the spec's concrete two-field configuration. -/
theorem claim_C2_witness :
    (([⟨"volume", Value.vint 80⟩, ⟨"muted", Value.vbool false⟩]
        : List ConfigVariable_t).map ConfigVariable_t.key_).Nodup
    ∧ Config.set [⟨"volume", Value.vint 80⟩, ⟨"muted", Value.vbool false⟩]
        (Config.get [⟨"volume", Value.vint 80⟩, ⟨"muted", Value.vbool false⟩])
      = SetResult.ok [⟨"volume", Value.vint 80⟩, ⟨"muted", Value.vbool false⟩] :=
  ⟨by decide, claim_C2 _ (by decide)⟩

/-- Counterexample for C2 as stated: two registered fields sharing the key
`k` with values 1 and 2; `get()` keeps only the last writer, and `set(get())`
overwrites the first field's value 1 with 2. -/
theorem claim_C2_counterexample :
    Config.set [⟨"k", Value.vint 1⟩, ⟨"k", Value.vint 2⟩]
        (Config.get [⟨"k", Value.vint 1⟩, ⟨"k", Value.vint 2⟩])
      = SetResult.ok [⟨"k", Value.vint 2⟩, ⟨"k", Value.vint 2⟩]
    ∧ Config.set [⟨"k", Value.vint 1⟩, ⟨"k", Value.vint 2⟩]
        (Config.get [⟨"k", Value.vint 1⟩, ⟨"k", Value.vint 2⟩])
      ≠ SetResult.ok [⟨"k", Value.vint 1⟩, ⟨"k", Value.vint 2⟩] := by
  refine ⟨rfl, ?_⟩
  decide

/-- C3 (corrected): the document's keys are NOT in registration order:
`nlohmann::json` stores object members in a `std::map`, i.e. sorted
lexicographically, and `dump` emits storage order.  Amended claim, proved
here: the keys of the document built by `get`/`save` are strictly sorted,
and for the spec's example (volume registered before muted) the output
lists `muted` first. -/
theorem claim_C3 :
    (∀ variables_ : List ConfigVariable_t,
      List.Pairwise (fun a b : String => strLt a b = true)
        (docKeys (Config.buildDoc variables_)))
    ∧ Config.get [⟨"volume", Value.vint 80⟩, ⟨"muted", Value.vbool false⟩]
        = "\x7b\"muted\":false,\"volume\":80\x7d" := by
  constructor
  · intro variables_
    cases variables_ with
    | nil => simp [buildDoc_nil, docKeys]
    | cons f fs =>
      rw [buildDoc_cons]
      show List.Pairwise (fun a b : String => strLt a b = true)
        (objKeys (Config.buildKvs (f :: fs) []))
      have hs : objSorted (Config.buildKvs (f :: fs) []) :=
        buildKvs_sorted _ _ (by simp [objSorted])
      rw [objKeys, List.pairwise_map]
      exact hs
  · rfl

/-- Counterexample for C3 as stated: with volume:int = 80 registered before
muted:bool = false, `get()` puts `muted` first, not `volume`. -/
theorem claim_C3_counterexample :
    Config.get [⟨"volume", Value.vint 80⟩, ⟨"muted", Value.vbool false⟩]
      = "\x7b\"muted\":false,\"volume\":80\x7d"
    ∧ Config.get [⟨"volume", Value.vint 80⟩, ⟨"muted", Value.vbool false⟩]
      ≠ "\x7b\"volume\":80,\"muted\":false\x7d" := by
  refine ⟨rfl, ?_⟩
  decide

/-- C4 (confirmed): if a parsed object document has an entry at a registered
field's key whose value does not convert to the field's declared type, that
field's `load` throws (`none` in the model) and the error propagates out of
`Config::set` as a deserialization (`type_error`) failure — it is not
swallowed. -/
theorem claim_C4 (variables_ : List ConfigVariable_t) (text : String)
    (kvs : List (String × Json)) (f : ConfigVariable_t) (j : Json)
    (hp : json_parse text = some (Json.obj kvs))
    (hmem : f ∈ variables_)
    (hfind : objFind f.key_ kvs = some j)
    (hconv : j.getTyped f.value_.tag = none) :
    f.load kvs = none ∧ (Config.set variables_ text).isTypeErr = true := by
  have hload : f.load kvs = none := by
    simp [ConfigVariable_t.load, hfind, hconv]
  refine ⟨hload, ?_⟩
  rw [Config.set, hp]
  exact loadAll_isTypeErr kvs variables_ f hmem hload

/-- Witness for C4: an int field fed a boolean value. -/
theorem claim_C4_witness :
    json_parse "\x7b\"volume\":true\x7d" = some (Json.obj [("volume", Json.bool true)])
    ∧ (⟨"volume", Value.vint 80⟩ : ConfigVariable_t)
        ∈ ([⟨"volume", Value.vint 80⟩] : List ConfigVariable_t)
    ∧ objFind "volume" [("volume", Json.bool true)] = some (Json.bool true)
    ∧ (Json.bool true).getTyped (Value.vint 80).tag = none
    ∧ ((⟨"volume", Value.vint 80⟩ : ConfigVariable_t).load
          [("volume", Json.bool true)] = none
      ∧ (Config.set [⟨"volume", Value.vint 80⟩] "\x7b\"volume\":true\x7d").isTypeErr
          = true) :=
  ⟨rfl, by decide, rfl, rfl,
    claim_C4 [⟨"volume", Value.vint 80⟩] "\x7b\"volume\":true\x7d"
      [("volume", Json.bool true)] ⟨"volume", Value.vint 80⟩ (Json.bool true)
      rfl (by decide) rfl rfl⟩

/-- C5 (confirmed): on an object document whose present entries all convert
to the matching fields' declared types, `set` succeeds (no error), each
field whose key occurs in the document takes the document's converted value,
each field whose key does not occur keeps its previous value, and document
keys matching no registered field have no effect (per-field lookup is the
only way the document is consulted). -/
theorem claim_C5 (variables_ : List ConfigVariable_t) (text : String)
    (kvs : List (String × Json))
    (hp : json_parse text = some (Json.obj kvs))
    (hok : ∀ f ∈ variables_, f.load kvs ≠ none) :
    Config.set variables_ text
        = SetResult.ok (variables_.map (fun f => f.loaded kvs))
    ∧ (∀ f : ConfigVariable_t, objFind f.key_ kvs = none → f.loaded kvs = f)
    ∧ (∀ (f : ConfigVariable_t) (j : Json) (v : Value),
        objFind f.key_ kvs = some j → j.getTyped f.value_.tag = some v →
        f.loaded kvs = { f with value_ := v }) := by
  refine ⟨?_, ?_, ?_⟩
  · rw [Config.set, hp]
    exact loadAll_ok kvs variables_ hok
  · intro f hfind
    simp [ConfigVariable_t.loaded, ConfigVariable_t.load, hfind]
  · intro f j v hfind hconv
    simp [ConfigVariable_t.loaded, ConfigVariable_t.load, hfind, hconv]

/-- Witness for C5: a partial update of `volume` with an unknown key
`extra`; `muted` is untouched, no error is raised. -/
theorem claim_C5_witness :
    json_parse "\x7b\"volume\":50,\"extra\":1\x7d"
      = some (Json.obj [("extra", Json.num 1), ("volume", Json.num 50)])
    ∧ (∀ f ∈ ([⟨"volume", Value.vint 80⟩, ⟨"muted", Value.vbool false⟩]
        : List ConfigVariable_t),
        f.load [("extra", Json.num 1), ("volume", Json.num 50)] ≠ none)
    ∧ Config.set [⟨"volume", Value.vint 80⟩, ⟨"muted", Value.vbool false⟩]
        "\x7b\"volume\":50,\"extra\":1\x7d"
      = SetResult.ok [⟨"volume", Value.vint 50⟩, ⟨"muted", Value.vbool false⟩] :=
  ⟨rfl, by decide,
    (claim_C5 [⟨"volume", Value.vint 80⟩, ⟨"muted", Value.vbool false⟩]
      "\x7b\"volume\":50,\"extra\":1\x7d"
      [("extra", Json.num 1), ("volume", Json.num 50)] rfl (by decide)).1⟩

/-- C6 (confirmed): `Config::load` on a file that cannot be opened (the
filesystem is modelled as the optional content of the named file, `none` =
the `ifstream` failed to open) is a silent no-op: no error and every
registered field keeps its previous value. -/
theorem claim_C6 (variables_ : List ConfigVariable_t) :
    Config.load none variables_ = SetResult.ok variables_ := rfl

/-- C7 (confirmed): with pairwise distinct keys, the document built by
`get`/`save` has exactly the registered keys (each exactly once, nothing
else — its key list is a permutation of the registered key list), and the
entry at each registered key is that field's serialized value. -/
theorem claim_C7 (variables_ : List ConfigVariable_t)
    (hnd : (variables_.map ConfigVariable_t.key_).Nodup) :
    (docKeys (Config.buildDoc variables_)).Perm
        (variables_.map ConfigVariable_t.key_)
    ∧ (∀ f ∈ variables_,
        docFind (Config.buildDoc variables_) f.key_ = some f.value_.toJson) := by
  cases variables_ with
  | nil =>
    constructor
    · simp [buildDoc_nil, docKeys]
    · intro f hf
      cases hf
  | cons g gs =>
    rw [buildDoc_cons]
    constructor
    · show (objKeys (Config.buildKvs (g :: gs) [])).Perm _
      have := buildKvs_keys_perm (g :: gs) [] hnd (by
        intro f hf
        simp [objKeys])
      simpa [objKeys] using this
    · intro f hf
      show objFind f.key_ (Config.buildKvs (g :: gs) []) = some f.value_.toJson
      exact buildKvs_find_self (g :: gs) [] f hf hnd

/-- Witness for C7 at the two-field configuration. -/
theorem claim_C7_witness :
    (([⟨"volume", Value.vint 80⟩, ⟨"muted", Value.vbool false⟩]
        : List ConfigVariable_t).map ConfigVariable_t.key_).Nodup
    ∧ (docKeys (Config.buildDoc
        [⟨"volume", Value.vint 80⟩, ⟨"muted", Value.vbool false⟩])).Perm
        ["volume", "muted"]
    ∧ (∀ f ∈ ([⟨"volume", Value.vint 80⟩, ⟨"muted", Value.vbool false⟩]
        : List ConfigVariable_t),
        docFind (Config.buildDoc
          [⟨"volume", Value.vint 80⟩, ⟨"muted", Value.vbool false⟩]) f.key_
          = some f.value_.toJson) :=
  ⟨by decide, (claim_C7 _ (by decide)).1, (claim_C7 _ (by decide)).2⟩

/-- C8 (confirmed): the keyed constructor registers exactly the new field
(appended at the end, registry grows by one); the default constructor never
registers (its body does not call `add_variable`), leaving the registry
unchanged. -/
theorem claim_C8 (variables_ : List ConfigVariable_t) (key : String)
    (value : Value) :
    Config.constructRegistered variables_ key value = variables_ ++ [⟨key, value⟩]
    ∧ (Config.constructRegistered variables_ key value).length
        = variables_.length + 1
    ∧ Config.constructDefault variables_ = variables_ := by
  refine ⟨rfl, ?_, rfl⟩
  simp [Config.constructRegistered, Config.add_variable]

/-- C9 (confirmed): `set` is not atomic: if the document has valid entries
for the fields before the i-th one and a type-mismatched entry at the i-th
field's key, the deserialization error escapes after the earlier fields have
already been overwritten with their document values, while the i-th and all
later fields keep their previous values. -/
theorem claim_C9 (pre post : List ConfigVariable_t) (f : ConfigVariable_t)
    (text : String) (kvs : List (String × Json)) (j : Json)
    (hp : json_parse text = some (Json.obj kvs))
    (hpre : ∀ g ∈ pre, g.load kvs ≠ none)
    (hfind : objFind f.key_ kvs = some j)
    (hconv : j.getTyped f.value_.tag = none) :
    Config.set (pre ++ f :: post) text
      = SetResult.typeErr (pre.map (fun g => g.loaded kvs) ++ f :: post)
    ∧ (∀ (g : ConfigVariable_t) (j' : Json) (v : Value),
        objFind g.key_ kvs = some j' → j'.getTyped g.value_.tag = some v →
        g.loaded kvs = { g with value_ := v }) := by
  constructor
  · rw [Config.set, hp]
    exact loadAll_typeErr kvs pre post f hpre
      (by simp [ConfigVariable_t.load, hfind, hconv])
  · intro g j' v h1 h2
    simp [ConfigVariable_t.loaded, ConfigVariable_t.load, h1, h2]

/-- Witness for C9: volume is overwritten with 50 before the boolean field
muted rejects the numeric 3 and the error escapes. -/
theorem claim_C9_witness :
    json_parse "\x7b\"volume\":50,\"muted\":3\x7d"
      = some (Json.obj [("muted", Json.num 3), ("volume", Json.num 50)])
    ∧ (∀ g ∈ ([⟨"volume", Value.vint 80⟩] : List ConfigVariable_t),
        g.load [("muted", Json.num 3), ("volume", Json.num 50)] ≠ none)
    ∧ objFind "muted" [("muted", Json.num 3), ("volume", Json.num 50)]
        = some (Json.num 3)
    ∧ (Json.num 3).getTyped (Value.vbool false).tag = none
    ∧ Config.set [⟨"volume", Value.vint 80⟩, ⟨"muted", Value.vbool false⟩]
        "\x7b\"volume\":50,\"muted\":3\x7d"
      = SetResult.typeErr
          [⟨"volume", Value.vint 50⟩, ⟨"muted", Value.vbool false⟩] :=
  ⟨rfl, by decide, rfl, rfl,
    (claim_C9 [⟨"volume", Value.vint 80⟩] [] ⟨"muted", Value.vbool false⟩
      "\x7b\"volume\":50,\"muted\":3\x7d"
      [("muted", Json.num 3), ("volume", Json.num 50)] (Json.num 3)
      rfl (by decide) rfl rfl).1⟩

/-- C10 (confirmed): with no registered fields, `nlohmann::json object{}`
stays null, so `get()` returns `"null"` (not `"\x7b\x7d"`), and `set(get())`
parses a non-object document and takes the no-op branch. -/
theorem claim_C10 :
    Config.get [] = "null"
    ∧ Config.get [] ≠ "\x7b\x7d"
    ∧ json_parse (Config.get []) = some Json.null
    ∧ Json.null.isObject = false
    ∧ Config.set [] (Config.get []) = SetResult.ok [] := by
  refine ⟨rfl, by decide, rfl, rfl, rfl⟩
